import Mathlib

/-!
Verification of the eat-cells game server core (src/server.js) through a
shallow embedding.  JavaScript floating-point numbers are idealised as real
numbers.  The quadtree uses only field operations and order comparisons, so it
is embedded over the rationals and stays executable.  Calls to Math.random are
threaded through explicit parameters.
-/

namespace EatCells

/-! ## Configuration constants (src/server.js, CONFIG block) -/

noncomputable def WORLD_SIZE : ℝ := 6000
noncomputable def BASE_SPEED : ℝ := 400
noncomputable def SPLIT_SPEED : ℝ := 400
noncomputable def MERGE_TIME : ℝ := 10
def FOOD_COUNT : ℕ := 60
noncomputable def FOOD_RADIUS : ℝ := 15
noncomputable def VIRUS_RADIUS : ℝ := 60
def MAX_VIRUS_PIECES : ℕ := 16
noncomputable def TARGET_SPEED_MULTIPLIER : ℝ := 1

/-! ## Mass conversions (cellAreaFromRadius / radiusFromArea) -/

noncomputable def cellAreaFromRadius (r : ℝ) : ℝ := Real.pi * r * r

noncomputable def radiusFromArea (a : ℝ) : ℝ := Real.sqrt (a / Real.pi)

/-! ## Entities.  Cosmetic fields (ids, colors of food) are omitted; every
field read or written by the simulation logic is present. -/

structure Cell where
  x : ℝ
  y : ℝ
  radius : ℝ
  vx : ℝ
  vy : ℝ
  mergeTimer : ℝ

structure Food where
  x : ℝ
  y : ℝ
  radius : ℝ
  vx : ℝ
  vy : ℝ
  isEjected : Bool
  dead : Bool

structure Player where
  name : String
  skin : ℤ
  color : ℝ × ℝ × ℝ
  isBot : Bool
  cells : List Cell
  inputDir : ℝ × ℝ
  mouseX : ℝ
  mouseY : ℝ
  hasMouseTarget : Bool

/-! ## Consumption / merge growth (the three `radiusFromArea (areaA + areaB)`
sites inside `update`: food eating, cell-vs-cell eating, same-owner merge) -/

noncomputable def foodGrow (c : Cell) (f : Food) : Cell :=
  { c with radius := radiusFromArea (cellAreaFromRadius c.radius + cellAreaFromRadius f.radius) }

noncomputable def eatFoodStep (c : Cell) (f : Food) : Cell × Food :=
  if f.dead then (c, f)
  else if (c.x - f.x) * (c.x - f.x) + (c.y - f.y) * (c.y - f.y) < (c.radius + f.radius) ^ 2 then
    (foodGrow c f, { f with dead := true })
  else (c, f)

noncomputable def eatCellGrow (a b : Cell) : Cell :=
  { a with radius := radiusFromArea (cellAreaFromRadius a.radius + cellAreaFromRadius b.radius) }

noncomputable def mergeCells (a b : Cell) : Cell :=
  { a with radius := radiusFromArea (cellAreaFromRadius a.radius + cellAreaFromRadius b.radius) }

lemma cellArea_nonneg (r : ℝ) : 0 ≤ cellAreaFromRadius r := by
  unfold cellAreaFromRadius
  rw [mul_assoc]
  exact mul_nonneg Real.pi_pos.le (mul_self_nonneg r)

lemma area_radiusFromArea (a : ℝ) (ha : 0 ≤ a) :
    cellAreaFromRadius (radiusFromArea a) = a := by
  unfold cellAreaFromRadius radiusFromArea
  rw [mul_assoc, Real.mul_self_sqrt (div_nonneg ha Real.pi_pos.le),
    mul_div_cancel₀ _ Real.pi_ne_zero]

/-- Claim C1: for every consumption or merge event (cell eats food, cell eats
another player's cell, two same-owner cells merge) the new radius is computed
as `radiusFromArea (area a + area b)`, so the area of the resulting cell is
exactly the sum of the two areas. -/
theorem consumption_area_conserved :
    (∀ c f, cellAreaFromRadius (foodGrow c f).radius
        = cellAreaFromRadius c.radius + cellAreaFromRadius f.radius) ∧
    (∀ a b, cellAreaFromRadius (eatCellGrow a b).radius
        = cellAreaFromRadius a.radius + cellAreaFromRadius b.radius) ∧
    (∀ a b, cellAreaFromRadius (mergeCells a b).radius
        = cellAreaFromRadius a.radius + cellAreaFromRadius b.radius) := by
  refine ⟨fun c f => ?_, fun a b => ?_, fun a b => ?_⟩ <;>
    simp only [foodGrow, eatCellGrow, mergeCells] <;>
    exact area_radiusFromArea _ (add_nonneg (cellArea_nonneg _) (cellArea_nonneg _))

/-! ## Split action (splitPlayer).  `ux`/`uy` stand for `dx/len`/`dy/len`. -/

noncomputable def splitCellStep (ux uy : ℝ) (cell : Cell) : Cell × Option Cell :=
  if cell.radius < 10 then (cell, none)
  else
    let newRadius := cell.radius * 0.5
    let spacing := newRadius * 2.5
    let moved : Cell :=
      { cell with
        radius := newRadius
        mergeTimer := MERGE_TIME
        x := cell.x - ux * spacing * 0.3
        y := cell.y - uy * spacing * 0.3 }
    (moved,
      some
        { x := moved.x + ux * spacing
          y := moved.y + uy * spacing
          radius := newRadius
          vx := ux * SPLIT_SPEED
          vy := uy * SPLIT_SPEED
          mergeTimer := MERGE_TIME })

noncomputable def splitPlayer (p : Player) : Player :=
  let dx := p.inputDir.1
  let dy := p.inputDir.2
  let h := Real.sqrt (dx * dx + dy * dy)
  let len := if h = 0 then 1 else h
  { p with
    cells :=
      p.cells.map (fun c => (splitCellStep (dx / len) (dy / len) c).1)
        ++ p.cells.filterMap (fun c => (splitCellStep (dx / len) (dy / len) c).2) }

noncomputable def splitDemoPlayer : Player :=
  { name := "p"
    skin := -1
    color := (0, 0, 0)
    isBot := false
    cells := [⟨0, 0, 40, 0, 0, 10⟩]
    inputDir := (1, 0)
    mouseX := 0
    mouseY := 0
    hasMouseTarget := false }

/-- Claim C2 counterexample: splitting a radius-40 cell (direction (1,0))
yields two radius-20 cells whose combined area is 800π, not the original
1600π; the split does NOT conserve area. -/
theorem split_area_conservation_cex :
    ((splitPlayer splitDemoPlayer).cells.map fun c => cellAreaFromRadius c.radius).sum
      ≠ cellAreaFromRadius (40 : ℝ) := by
  have h1 : Real.sqrt ((1 : ℝ) * 1 + 0 * 0) = 1 := by norm_num
  simp only [splitPlayer, splitDemoPlayer, h1, one_ne_zero, if_false, splitCellStep]
  norm_num [cellAreaFromRadius, List.filterMap_cons]
  intro h
  nlinarith [Real.pi_pos]

/-- Claim C2 amended: for every split applied to a cell with radius ≥ 10, both
resulting cells have half the original radius, and their combined area equals
HALF the area of the original cell (the split discards half of the area). -/
theorem split_area_halved (ux uy : ℝ) (c : Cell) (h : 10 ≤ c.radius) :
    ∃ n, (splitCellStep ux uy c).2 = some n ∧
      (splitCellStep ux uy c).1.radius = c.radius * 0.5 ∧
      n.radius = c.radius * 0.5 ∧
      cellAreaFromRadius (splitCellStep ux uy c).1.radius + cellAreaFromRadius n.radius
        = cellAreaFromRadius c.radius / 2 := by
  rw [splitCellStep, if_neg (not_lt.mpr h)]
  refine ⟨_, rfl, rfl, rfl, ?_⟩
  unfold cellAreaFromRadius
  ring

/-- Witness for `split_area_halved` at a concrete radius-40 cell. -/
theorem split_area_halved_witness :
    (10 : ℝ) ≤ (Cell.mk 0 0 40 0 0 10).radius ∧
      ∃ n, (splitCellStep 1 0 (Cell.mk 0 0 40 0 0 10)).2 = some n ∧
        (splitCellStep 1 0 (Cell.mk 0 0 40 0 0 10)).1.radius = (Cell.mk 0 0 40 0 0 10).radius * 0.5 ∧
        n.radius = (Cell.mk 0 0 40 0 0 10).radius * 0.5 ∧
        cellAreaFromRadius (splitCellStep 1 0 (Cell.mk 0 0 40 0 0 10)).1.radius
            + cellAreaFromRadius n.radius
          = cellAreaFromRadius (Cell.mk 0 0 40 0 0 10).radius / 2 :=
  ⟨by norm_num, split_area_halved 1 0 (Cell.mk 0 0 40 0 0 10) (by norm_num)⟩

/-! ## Cell-vs-cell eating decision (the guard chain of the cell pass in
`update`).  `pa`/`pb` are the owning players' identities. -/

noncomputable def cellDist2 (a b : Cell) : ℝ :=
  (a.x - b.x) * (a.x - b.x) + (a.y - b.y) * (a.y - b.y)

noncomputable def cellEatDecision (pa pb : ℕ) (a b : Cell) : Bool :=
  if pa = pb then false
  else if a.radius ≤ b.radius * 1.15 then false
  else if cellDist2 a b < (a.radius - b.radius * 0.25) * (a.radius - b.radius * 0.25) then true
  else false

/-- Claim C3: a broad-phase candidate B is eaten by A iff B belongs to a
different player, A is more than 15% larger, and the squared distance is below
`(radiusA - radiusB*0.25)^2`; in particular a radius-10 cell never eats a
radius-9 cell, while a radius-12 cell within eating distance eats a radius-10
cell of another player. -/
theorem cell_eat_rule :
    (∀ pa pb a b, cellEatDecision pa pb a b = true ↔
        pa ≠ pb ∧ b.radius * 1.15 < a.radius ∧
          cellDist2 a b < (a.radius - b.radius * 0.25) ^ 2) ∧
    (∀ pa pb a b, a.radius = 10 → b.radius = 9 → cellEatDecision pa pb a b = false) ∧
    (∀ pa pb a b, pa ≠ pb → a.radius = 12 → b.radius = 10 →
        cellDist2 a b < (a.radius - b.radius * 0.25) ^ 2 →
        cellEatDecision pa pb a b = true) := by
  refine ⟨fun pa pb a b => ?_, fun pa pb a b ha hb => ?_, fun pa pb a b hp ha hb hd => ?_⟩
  · unfold cellEatDecision
    split_ifs with h1 h2 h3
    · simp [h1]
    · simp only [false_iff]
      rintro ⟨-, hlt, -⟩
      exact absurd h2 (not_le.mpr hlt)
    · rw [pow_two] at *
      simp [h1, not_le.mp h2, h3]
    · rw [pow_two] at *
      simp [h1, not_le.mp h2, h3]
  · unfold cellEatDecision
    rw [ha, hb]
    split_ifs with h1 h2 h3
    · rfl
    · rfl
    · exact absurd (by norm_num : (10 : ℝ) ≤ 9 * 1.15) h2
    · exact absurd (by norm_num : (10 : ℝ) ≤ 9 * 1.15) h2
  · rw [pow_two] at hd
    unfold cellEatDecision
    rw [if_neg hp, if_neg (by rw [ha, hb]; norm_num), if_pos hd]

/-- Witness for `cell_eat_rule`: a radius-12 cell at distance 1 eats a
radius-10 cell of another player, and a radius-10 cell never eats a radius-9
one. -/
theorem cell_eat_rule_witness :
    cellEatDecision 1 2 (Cell.mk 0 0 12 0 0 0) (Cell.mk 1 0 10 0 0 0) = true ∧
      cellEatDecision 1 2 (Cell.mk 0 0 10 0 0 0) (Cell.mk 1 0 9 0 0 0) = false :=
  ⟨cell_eat_rule.2.2 1 2 _ _ (by norm_num) rfl rfl (by norm_num [cellDist2]),
    cell_eat_rule.2.1 1 2 _ _ rfl rfl⟩

/-! ## Same-owner merge sweep (the final loop of `update`).  The imperative
double loop with in-place removal (`splice`/`j--`) is rendered as structural
recursion: `mergeInner a rest` plays the inner `j` loop for the cell at index
`i`, and `mergePass` the outer loop. -/

noncomputable def mergeInner (a : Cell) : List Cell → Cell × List Cell
  | [] => (a, [])
  | b :: rest =>
    if 0 < a.mergeTimer ∨ 0 < b.mergeTimer then
      let r := mergeInner a rest
      (r.1, b :: r.2)
    else if cellDist2 a b < (a.radius + b.radius) ^ 2 then
      mergeInner (mergeCells a b) rest
    else
      let r := mergeInner a rest
      (r.1, b :: r.2)

lemma mergeInner_snd_length (a : Cell) (l : List Cell) :
    (mergeInner a l).2.length ≤ l.length := by
  induction l generalizing a with
  | nil => simp [mergeInner]
  | cons b rest ih =>
    rw [mergeInner]
    split_ifs
    · simpa using ih a
    · exact le_trans (ih (mergeCells a b)) (Nat.le_succ _)
    · simpa using ih a

noncomputable def mergePass : List Cell → List Cell
  | [] => []
  | a :: rest => (mergeInner a rest).1 :: mergePass (mergeInner a rest).2
termination_by l => l.length
decreasing_by
  simp only [List.length_cons]
  exact Nat.lt_succ_of_le (mergeInner_snd_length _ _)

lemma mergePass_nil : mergePass [] = [] := by
  simp only [mergePass]

lemma mergePass_cons (a : Cell) (rest : List Cell) :
    mergePass (a :: rest) = (mergeInner a rest).1 :: mergePass (mergeInner a rest).2 := by
  simp only [mergePass]

lemma mergeInner_timer_pos (a : Cell) (l : List Cell) (ha : 0 < a.mergeTimer) :
    mergeInner a l = (a, l) := by
  induction l with
  | nil => rfl
  | cons b rest ih =>
    rw [mergeInner, if_pos (Or.inl ha), ih]

lemma mergeInner_mem_of_timer (a : Cell) (l : List Cell) (c : Cell)
    (hc : c ∈ l) (hct : 0 < c.mergeTimer) : c ∈ (mergeInner a l).2 := by
  induction l generalizing a with
  | nil => cases hc
  | cons b rest ih =>
    rw [mergeInner]
    split_ifs with h1 h2
    · rcases List.mem_cons.mp hc with rfl | hmem
      · exact List.mem_cons_self _ _
      · exact List.mem_cons_of_mem _ (ih a hmem)
    · rcases List.mem_cons.mp hc with rfl | hmem
      · exact absurd (Or.inr hct) h1
      · exact ih (mergeCells a b) hmem
    · rcases List.mem_cons.mp hc with rfl | hmem
      · exact List.mem_cons_self _ _
      · exact List.mem_cons_of_mem _ (ih a hmem)

lemma mergePass_keeps_timer (n : ℕ) :
    ∀ l : List Cell, l.length ≤ n → ∀ c ∈ l, 0 < c.mergeTimer → c ∈ mergePass l := by
  induction n with
  | zero =>
    intro l hl c hc _
    rw [List.length_eq_zero.mp (Nat.le_zero.mp hl)] at hc
    cases hc
  | succ n ih =>
    intro l hl c hc hct
    match l with
    | [] => cases hc
    | a :: rest =>
      rw [mergePass_cons]
      rcases List.mem_cons.mp hc with rfl | hmem
      · rw [mergeInner_timer_pos _ _ hct]
        exact List.mem_cons_self _ _
      · refine List.mem_cons_of_mem _ (ih _ ?_ _ (mergeInner_mem_of_timer a rest c hmem hct) hct)
        have h1 := mergeInner_snd_length a rest
        simp only [List.length_cons] at hl
        omega

/-- Claim C4: two cells of one player never merge while either cell's
`mergeTimer` is positive (such cells survive every merge pass untouched); once
both timers are ≤ 0 and the cells overlap, the merge pass merges them, with
the combined area going into the lower-indexed cell (which keeps its
position) and the higher-indexed cell removed. -/
theorem merge_gating :
    (∀ (l : List Cell) (c : Cell), c ∈ l → 0 < c.mergeTimer → c ∈ mergePass l) ∧
    (∀ a b : Cell, (0 < a.mergeTimer ∨ 0 < b.mergeTimer) → mergePass [a, b] = [a, b]) ∧
    (∀ a b : Cell, a.mergeTimer ≤ 0 → b.mergeTimer ≤ 0 →
        cellDist2 a b < (a.radius + b.radius) ^ 2 →
        mergePass [a, b] = [mergeCells a b] ∧
          cellAreaFromRadius (mergeCells a b).radius
            = cellAreaFromRadius a.radius + cellAreaFromRadius b.radius ∧
          (mergeCells a b).x = a.x ∧ (mergeCells a b).y = a.y) := by
  refine ⟨fun l c hc hct => mergePass_keeps_timer l.length l le_rfl c hc hct,
    fun a b h => ?_, fun a b ha hb hd => ⟨?_, ?_, rfl, rfl⟩⟩
  · rw [mergePass_cons, mergeInner, if_pos h, mergeInner, mergePass_cons, mergeInner,
      mergePass_nil]
  · rw [mergePass_cons, mergeInner, if_neg (by push_neg; exact ⟨ha, hb⟩), if_pos hd, mergeInner,
      mergePass_nil]
  · exact area_radiusFromArea _ (add_nonneg (cellArea_nonneg _) (cellArea_nonneg _))

/-- Witness for `merge_gating`: a pair with positive timers survives the pass
unchanged; a pair with expired timers at distance 0 merges into one cell. -/
theorem merge_gating_witness :
    mergePass [Cell.mk 0 0 40 0 0 5, Cell.mk 1 0 40 0 0 5]
        = [Cell.mk 0 0 40 0 0 5, Cell.mk 1 0 40 0 0 5] ∧
      mergePass [Cell.mk 0 0 40 0 0 0, Cell.mk 1 0 40 0 0 0]
        = [mergeCells (Cell.mk 0 0 40 0 0 0) (Cell.mk 1 0 40 0 0 0)] ∧
      Cell.mk 0 0 40 0 0 5 ∈ mergePass [Cell.mk 0 0 40 0 0 5, Cell.mk 1 0 40 0 0 5] :=
  ⟨merge_gating.2.1 _ _ (Or.inl (by norm_num)),
    (merge_gating.2.2 _ _ le_rfl le_rfl (by norm_num [cellDist2])).1,
    merge_gating.1 _ _ (List.mem_cons_self _ _) (by norm_num)⟩

/-! ## Movement resolver (the per-cell block of the "move players" loop in
`update`).  The sequence of in-place mutations
`accelerate; x += vx*dt; vx *= 0.86; clamp; mergeTimer -= dt`
is rendered as its net effect on the cell record. -/

noncomputable def clampCoord (r x : ℝ) : ℝ :=
  max (-(WORLD_SIZE / 2) + r) (min (WORLD_SIZE / 2 - r) x)

noncomputable def moveCell (p : Player) (dt : ℝ) (c : Cell) : Cell :=
  let sizeFactor := Real.sqrt (c.radius / 40)
  let speed := BASE_SPEED / sizeFactor
  let v :=
    if p.hasMouseTarget then
      let dx := p.mouseX - c.x
      let dy := p.mouseY - c.y
      let distToMouse := Real.sqrt (dx * dx + dy * dy)
      if c.radius * 0.5 < distToMouse then
        (c.vx + dx / distToMouse * speed * dt * TARGET_SPEED_MULTIPLIER,
          c.vy + dy / distToMouse * speed * dt * TARGET_SPEED_MULTIPLIER)
      else (c.vx * 0.7, c.vy * 0.7)
    else
      let dx := p.inputDir.1
      let dy := p.inputDir.2
      let h := Real.sqrt (dx * dx + dy * dy)
      let dirLen := if h = 0 then 1 else h
      (c.vx + dx / dirLen * speed * dt, c.vy + dy / dirLen * speed * dt)
  { x := clampCoord c.radius (c.x + v.1 * dt)
    y := clampCoord c.radius (c.y + v.2 * dt)
    radius := c.radius
    vx := v.1 * 0.86
    vy := v.2 * 0.86
    mergeTimer := c.mergeTimer - dt }

/-- The post-acceleration (pre-drag) velocity of a cell, written out
separately from `moveCell`. -/
noncomputable def accelVel (p : Player) (dt : ℝ) (c : Cell) : ℝ × ℝ :=
  let sizeFactor := Real.sqrt (c.radius / 40)
  let speed := BASE_SPEED / sizeFactor
  if p.hasMouseTarget then
    let dx := p.mouseX - c.x
    let dy := p.mouseY - c.y
    let distToMouse := Real.sqrt (dx * dx + dy * dy)
    if c.radius * 0.5 < distToMouse then
      (c.vx + dx / distToMouse * speed * dt * TARGET_SPEED_MULTIPLIER,
        c.vy + dy / distToMouse * speed * dt * TARGET_SPEED_MULTIPLIER)
    else (c.vx * 0.7, c.vy * 0.7)
  else
    let dx := p.inputDir.1
    let dy := p.inputDir.2
    let h := Real.sqrt (dx * dx + dy * dy)
    let dirLen := if h = 0 then 1 else h
    (c.vx + dx / dirLen * speed * dt, c.vy + dy / dirLen * speed * dt)

/-- Modelled from claim C5's wording, for comparison only: the variant of the
movement step in which the drag `*= 0.86` is applied BEFORE the position
integration, so the position update uses the post-drag velocity. -/
noncomputable def moveCellDragFirst (p : Player) (dt : ℝ) (c : Cell) : Cell :=
  let v := accelVel p dt c
  let vx2 := v.1 * 0.86
  let vy2 := v.2 * 0.86
  { x := clampCoord c.radius (c.x + vx2 * dt)
    y := clampCoord c.radius (c.y + vy2 * dt)
    radius := c.radius
    vx := vx2
    vy := vy2
    mergeTimer := c.mergeTimer - dt }

noncomputable def idlePlayer : Player :=
  { name := "p"
    skin := -1
    color := (0, 0, 0)
    isBot := false
    cells := []
    inputDir := (0, 0)
    mouseX := 0
    mouseY := 0
    hasMouseTarget := false }

/-- Claim C5 counterexample: for a cell with velocity 100 and no acceleration,
the code moves the cell by 100·dt (position integrated BEFORE drag), whereas
the claimed order (drag before integration) would move it by 86·dt; the two
orders give different positions. -/
theorem drag_order_cex :
    (moveCell idlePlayer 1 (Cell.mk 0 0 40 100 0 0)).x
      ≠ (moveCellDragFirst idlePlayer 1 (Cell.mk 0 0 40 100 0 0)).x := by
  have h0 : Real.sqrt ((0 : ℝ) * 0 + 0 * 0) = 0 := by norm_num
  simp only [moveCell, moveCellDragFirst, accelVel, idlePlayer, h0, if_pos rfl]
  norm_num [clampCoord, WORLD_SIZE]

/-- Claim C5 amended: each tick, for every cell, acceleration is applied
first, then the position is integrated using the PRE-drag (post-acceleration)
velocity, then drag (`velocity *= 0.86`) is applied to the stored velocity,
and the clamp to world bounds happens last (drag comes after position
integration, not before). -/
theorem move_integrates_before_drag (p : Player) (dt : ℝ) (c : Cell) :
    moveCell p dt c =
      { x := clampCoord c.radius (c.x + (accelVel p dt c).1 * dt)
        y := clampCoord c.radius (c.y + (accelVel p dt c).2 * dt)
        radius := c.radius
        vx := (accelVel p dt c).1 * 0.86
        vy := (accelVel p dt c).2 * 0.86
        mergeTimer := c.mergeTimer - dt } := rfl

/-- Claim C6 amended: the containment invariant holds right after the
movement clamp: whenever a cell's radius is at most half the world size, the
moved cell's center lies within `[-WORLD_SIZE/2 + r, WORLD_SIZE/2 - r]` on
both axes (and movement does not change the radius).  Later phases of the
same tick (food/cell consumption, merging, split, virus explosion) can move
this center/radius pair outside the band again; see the counterexample. -/
theorem movement_clamp_containment (p : Player) (dt : ℝ) (c : Cell)
    (h : c.radius ≤ WORLD_SIZE / 2) :
    (-(WORLD_SIZE / 2) + c.radius ≤ (moveCell p dt c).x ∧
        (moveCell p dt c).x ≤ WORLD_SIZE / 2 - c.radius) ∧
      (-(WORLD_SIZE / 2) + c.radius ≤ (moveCell p dt c).y ∧
        (moveCell p dt c).y ≤ WORLD_SIZE / 2 - c.radius) ∧
      (moveCell p dt c).radius = c.radius := by
  have hb : ∀ x : ℝ, -(WORLD_SIZE / 2) + c.radius ≤ clampCoord c.radius x ∧
      clampCoord c.radius x ≤ WORLD_SIZE / 2 - c.radius := by
    intro x
    unfold clampCoord
    constructor
    · exact le_max_left _ _
    · exact max_le (by linarith) (min_le_left _ _)
  exact ⟨hb _, hb _, rfl⟩

/-- Witness for `movement_clamp_containment` at a concrete boundary cell. -/
theorem movement_clamp_containment_witness :
    (Cell.mk 2960 0 40 0 0 5).radius ≤ WORLD_SIZE / 2 ∧
      ((-(WORLD_SIZE / 2) + (Cell.mk 2960 0 40 0 0 5).radius
            ≤ (moveCell idlePlayer 0.05 (Cell.mk 2960 0 40 0 0 5)).x ∧
          (moveCell idlePlayer 0.05 (Cell.mk 2960 0 40 0 0 5)).x
            ≤ WORLD_SIZE / 2 - (Cell.mk 2960 0 40 0 0 5).radius) ∧
        (-(WORLD_SIZE / 2) + (Cell.mk 2960 0 40 0 0 5).radius
            ≤ (moveCell idlePlayer 0.05 (Cell.mk 2960 0 40 0 0 5)).y ∧
          (moveCell idlePlayer 0.05 (Cell.mk 2960 0 40 0 0 5)).y
            ≤ WORLD_SIZE / 2 - (Cell.mk 2960 0 40 0 0 5).radius) ∧
        (moveCell idlePlayer 0.05 (Cell.mk 2960 0 40 0 0 5)).radius
          = (Cell.mk 2960 0 40 0 0 5).radius) :=
  ⟨by norm_num [WORLD_SIZE],
    movement_clamp_containment idlePlayer 0.05 _ (by norm_num [WORLD_SIZE])⟩

/-- Claim C6 counterexample: a cell at the right world edge (center 2960,
radius 40, so exactly at the clamp bound) that eats a food pellet later in the
same tick ends the tick with `x > WORLD_SIZE/2 - radius`: the containment
claimed "at the end of each full tick, including for cells whose radius grew
after the movement clamp" fails. -/
theorem containment_after_growth_cex :
    WORLD_SIZE / 2
        - ((eatFoodStep (moveCell idlePlayer 0.05 (Cell.mk 2960 0 40 0 0 5))
              (Food.mk 2960 0 15 0 0 false false)).1).radius
      < ((eatFoodStep (moveCell idlePlayer 0.05 (Cell.mk 2960 0 40 0 0 5))
              (Food.mk 2960 0 15 0 0 false false)).1).x := by
  have h0 : Real.sqrt ((0 : ℝ) * 0 + 0 * 0) = 0 := by norm_num
  have hmove : moveCell idlePlayer 0.05 (Cell.mk 2960 0 40 0 0 5)
      = Cell.mk 2960 0 40 0 0 (5 - 0.05) := by
    simp only [moveCell, idlePlayer, h0, if_pos rfl]
    norm_num [clampCoord, WORLD_SIZE]
  rw [hmove]
  have heat : (eatFoodStep (Cell.mk 2960 0 40 0 0 (5 - 0.05))
      (Food.mk 2960 0 15 0 0 false false)).1
      = foodGrow (Cell.mk 2960 0 40 0 0 (5 - 0.05)) (Food.mk 2960 0 15 0 0 false false) := by
    rw [eatFoodStep, if_neg (by norm_num), if_pos (by norm_num)]
  rw [heat]
  have hr : (foodGrow (Cell.mk 2960 0 40 0 0 (5 - 0.05))
      (Food.mk 2960 0 15 0 0 false false)).radius = Real.sqrt 1825 := by
    simp only [foodGrow, radiusFromArea, cellAreaFromRadius]
    congr 1
    field_simp
    ring
  have hx : (foodGrow (Cell.mk 2960 0 40 0 0 (5 - 0.05))
      (Food.mk 2960 0 15 0 0 false false)).x = 2960 := rfl
  rw [hr, hx]
  have h40 : (40 : ℝ) < Real.sqrt 1825 := by
    rw [show (40 : ℝ) = Real.sqrt 1600 by
      rw [show (1600 : ℝ) = 40 ^ 2 by norm_num, Real.sqrt_sq (by norm_num)]]
    exact Real.sqrt_lt_sqrt (by norm_num) (by norm_num)
  unfold WORLD_SIZE
  linarith

/-! ## Food purge and replenish (end of the food pass in `update`).  The
`while (foods.length < FOOD_COUNT) push(createFood())` loop is rendered as
appending the missing number of fresh pellets; `fresh` supplies the random
spawns. -/

def replenishFoods (foods : List Food) (fresh : ℕ → Food) : List Food :=
  let alive := foods.filter fun f => !f.dead
  alive ++ (List.range (FOOD_COUNT - alive.length)).map fresh

/-! ## Eject action (ejectMass).  `ux`/`uy` stand for `dx/len`/`dy/len`. -/

noncomputable def ejectCellStep (ux uy : ℝ) (cell : Cell) : Cell × Option Food :=
  if cell.radius < 35 then (cell, none)
  else
    let area := cellAreaFromRadius cell.radius
    let ejectArea := cellAreaFromRadius FOOD_RADIUS * 2
    let newArea := area - ejectArea
    if newArea ≤ 0 then (cell, none)
    else
      let c : Cell := { cell with radius := radiusFromArea newArea }
      (c,
        some
          { x := c.x + ux * (c.radius + FOOD_RADIUS + 2)
            y := c.y + uy * (c.radius + FOOD_RADIUS + 2)
            radius := FOOD_RADIUS
            vx := ux * 900
            vy := uy * 900
            isEjected := true
            dead := false })

noncomputable def ejectMass (p : Player) (foods : List Food) : Player × List Food :=
  let dx := p.inputDir.1
  let dy := p.inputDir.2
  let h := Real.sqrt (dx * dx + dy * dy)
  let len := if h = 0 then 1 else h
  if len = 0 then (p, foods)
  else
    ({ p with cells := p.cells.map fun c => (ejectCellStep (dx / len) (dy / len) c).1 },
      foods ++ p.cells.filterMap fun c => (ejectCellStep (dx / len) (dy / len) c).2)

/-- Claim C7 amended: after the purge-and-top-up step, the number of food
pellets equals `max (number of surviving pellets) FOOD_COUNT` — never less
than FOOD_COUNT, but MORE than FOOD_COUNT whenever more than FOOD_COUNT
pellets survive the purge (ejected pellets are regular list members, so the
count can exceed the target; it is not topped "back up to exactly" the
target). -/
theorem food_replenish_count (foods : List Food) (fresh : ℕ → Food) :
    (replenishFoods foods fresh).length
        = max (foods.filter fun f => !f.dead).length FOOD_COUNT ∧
      FOOD_COUNT ≤ (replenishFoods foods fresh).length := by
  simp only [replenishFoods, List.length_append, List.length_map, List.length_range]
  omega

noncomputable def ejectDemoPlayer : Player :=
  { name := "p"
    skin := -1
    color := (0, 0, 0)
    isBot := false
    cells := [⟨0, 0, 40, 0, 0, 10⟩]
    inputDir := (1, 0)
    mouseX := 0
    mouseY := 0
    hasMouseTarget := false }

noncomputable def demoFood : Food := ⟨0, 0, 15, 0, 0, false, false⟩

/-- Claim C7 counterexample: starting from the steady state of 60 live
pellets, one eject by a radius-40 cell leaves 61 live pellets, and the
purge-and-top-up step then keeps all 61 of them: the food count after the
tick is 61, not FOOD_COUNT = 60. -/
theorem food_count_cex :
    (replenishFoods (ejectMass ejectDemoPlayer (List.replicate 60 demoFood)).2
        fun _ => demoFood).length ≠ FOOD_COUNT := by
  have h1 : Real.sqrt ((1 : ℝ) * 1 + 0 * 0) = 1 := by norm_num
  have harea : ¬ (cellAreaFromRadius (40 : ℝ) - cellAreaFromRadius FOOD_RADIUS * 2 ≤ 0) := by
    unfold cellAreaFromRadius FOOD_RADIUS
    push_neg
    nlinarith [Real.pi_pos]
  obtain ⟨fd, hfd, hfm⟩ : ∃ fd : Food, fd.dead = false ∧
      (ejectDemoPlayer.cells.filterMap fun c =>
        (ejectCellStep (1 / 1) (0 / 1) c).2) = [fd] := by
    simp only [ejectDemoPlayer, List.filterMap_cons, List.filterMap_nil, ejectCellStep]
    rw [if_neg (by norm_num), if_neg harea]
    exact ⟨_, rfl, rfl⟩
  have hstep : (ejectMass ejectDemoPlayer (List.replicate 60 demoFood)).2
      = List.replicate 60 demoFood ++ [fd] := by
    rw [ejectMass]
    simp only [ejectDemoPlayer, h1, one_ne_zero, if_false] at hfm ⊢
    rw [hfm]
  rw [hstep]
  simp only [replenishFoods]
  rw [List.filter_eq_self.mpr ?_]
  · simp only [List.length_append, List.length_map, List.length_range, List.length_replicate,
      List.length_singleton]
    decide
  · intro f hf
    rcases List.mem_append.mp hf with hf | hf
    · rw [List.eq_of_mem_replicate hf]
      rfl
    · rw [List.mem_singleton.mp hf]
      simp [hfd]

/-! ## Virus explosion (explodeCellIntoMany).  `jitter i` stands for the
`Math.random()` drawn for piece `i`. -/

noncomputable def explodeFragments (cell : Cell) (jitter : ℕ → ℝ) : List Cell :=
  let totalArea := cellAreaFromRadius cell.radius
  let pieces := min MAX_VIRUS_PIECES (max 8 (Int.toNat ⌊totalArea / 2000⌋))
  let pieceArea := totalArea / pieces
  let pieceRadius := radiusFromArea pieceArea
  let minDistance := pieceRadius * 3
  (List.range pieces).map fun i : ℕ =>
    let angle := 2 * Real.pi * (i : ℝ) / (pieces : ℝ)
    let distance := minDistance * (0.8 + jitter i * 0.4)
    { x := cell.x + Real.cos angle * distance
      y := cell.y + Real.sin angle * distance
      radius := pieceRadius
      vx := Real.cos angle * 200
      vy := Real.sin angle * 200
      mergeTimer := MERGE_TIME * 1.2 }

open Classical in
noncomputable def explodeCellIntoMany (p : Player) (cell : Cell) (jitter : ℕ → ℝ) : Player :=
  { p with
    cells := (p.cells.filter fun c => decide (c ≠ cell)) ++ explodeFragments cell jitter }

/-- Claim C8: detonating a cell removes it from its owner's sequence and
replaces it with `pieces = min(16, max(8, floor(area/2000)))` fragments, all
of the same radius, whose total area equals the area of the original cell. -/
theorem virus_explosion_fragments (p : Player) (cell : Cell) (jitter : ℕ → ℝ) :
    (∀ c, c ∈ (explodeCellIntoMany p cell jitter).cells ↔
        (c ∈ p.cells ∧ c ≠ cell) ∨ c ∈ explodeFragments cell jitter) ∧
      (explodeFragments cell jitter).length
        = min MAX_VIRUS_PIECES (max 8 (Int.toNat ⌊cellAreaFromRadius cell.radius / 2000⌋)) ∧
      ((explodeFragments cell jitter).map fun c => cellAreaFromRadius c.radius).sum
        = cellAreaFromRadius cell.radius := by
  classical
  refine ⟨fun c => ?_, ?_, ?_⟩
  · simp only [explodeCellIntoMany, List.mem_append, List.mem_filter, decide_eq_true_eq]
  · simp only [explodeFragments, List.length_map, List.length_range]
  · set A := cellAreaFromRadius cell.radius with hA
    have hA0 : 0 ≤ A := cellArea_nonneg _
    set pieces := min MAX_VIRUS_PIECES (max 8 (Int.toNat ⌊A / 2000⌋)) with hp
    have hpieces : 8 ≤ pieces := by
      rw [hp]
      unfold MAX_VIRUS_PIECES
      omega
    have hne : ((pieces : ℝ)) ≠ 0 := by
      have : (0 : ℝ) < pieces := by
        exact_mod_cast Nat.lt_of_lt_of_le (by norm_num) hpieces
      exact ne_of_gt this
    have hmap : ((explodeFragments cell jitter).map fun c => cellAreaFromRadius c.radius)
        = List.replicate pieces (cellAreaFromRadius (radiusFromArea (A / pieces))) := by
      simp only [explodeFragments, ← hA, ← hp, List.map_map]
      refine List.eq_replicate_iff.mpr ⟨by simp, fun b hb => ?_⟩
      simp only [List.mem_map, List.mem_range, Function.comp] at hb
      obtain ⟨i, -, rfl⟩ := hb
      rfl
    rw [hmap, List.sum_replicate, nsmul_eq_mul,
      area_radiusFromArea _ (div_nonneg hA0 (Nat.cast_nonneg _)), mul_comm,
      div_mul_cancel₀ _ hne]

/-! ## Quadtree (class QuadTree).  The tree only performs field operations and
order comparisons on coordinates, so it is embedded over ℚ and stays
executable.  `divided` is modelled by the `leaf`/`node` constructors.  The
per-node `capacity`, `depth` and `maxDepth` fields, which are constant over a
tree resp. equal to the structural depth in every tree the program builds, are
carried as parameters: `cap` and the remaining depth budget
`budget = maxDepth - depth` (so the source guard `depth >= maxDepth` is
`budget = 0`, and recursing into a child turns `budget` into `budget - 1`). -/

structure QBox where
  x : ℚ
  y : ℚ
  w : ℚ
  h : ℚ
deriving DecidableEq

structure QObj where
  x : ℚ
  y : ℚ
  radius : ℚ
  oid : ℕ
deriving DecidableEq

inductive QuadTree : Type where
  | leaf (boundary : QBox) (points : List QObj)
  | node (boundary : QBox) (points : List QObj) (nw ne sw se : QuadTree)
deriving DecidableEq

def QuadTree.boundary : QuadTree → QBox
  | .leaf b _ => b
  | .node b _ _ _ _ _ => b

def outOfBounds (b : QBox) (o : QObj) : Bool :=
  decide (o.x < b.x - b.w / 2) || decide (b.x + b.w / 2 < o.x) ||
    decide (o.y < b.y - b.h / 2) || decide (b.y + b.h / 2 < o.y)

def nwBox (b : QBox) : QBox := ⟨b.x - b.w / 4, b.y - b.h / 4, b.w / 2, b.h / 2⟩
def neBox (b : QBox) : QBox := ⟨b.x + b.w / 4, b.y - b.h / 4, b.w / 2, b.h / 2⟩
def swBox (b : QBox) : QBox := ⟨b.x - b.w / 4, b.y + b.h / 4, b.w / 2, b.h / 2⟩
def seBox (b : QBox) : QBox := ⟨b.x + b.w / 4, b.y + b.h / 4, b.w / 2, b.h / 2⟩

def qtInsert (cap : ℕ) : ℕ → QuadTree → QObj → QuadTree × Bool
  | budget, .leaf bx pts, o =>
    if outOfBounds bx o then (.leaf bx pts, false)
    else
      match budget with
      | 0 => (.leaf bx (pts ++ [o]), true)
      | bud + 1 =>
        if pts.length < cap then (.leaf bx (pts ++ [o]), true)
        else
          let r1 := qtInsert cap bud (.leaf (nwBox bx) []) o
          if r1.2 then
            (.node bx pts r1.1 (.leaf (neBox bx) []) (.leaf (swBox bx) []) (.leaf (seBox bx) []),
              true)
          else
            let r2 := qtInsert cap bud (.leaf (neBox bx) []) o
            if r2.2 then
              (.node bx pts r1.1 r2.1 (.leaf (swBox bx) []) (.leaf (seBox bx) []), true)
            else
              let r3 := qtInsert cap bud (.leaf (swBox bx) []) o
              if r3.2 then
                (.node bx pts r1.1 r2.1 r3.1 (.leaf (seBox bx) []), true)
              else
                let r4 := qtInsert cap bud (.leaf (seBox bx) []) o
                (.node bx pts r1.1 r2.1 r3.1 r4.1, r4.2)
  | budget, .node bx pts nw ne sw se, o =>
    if outOfBounds bx o then (.node bx pts nw ne sw se, false)
    else
      match budget with
      | 0 => (.node bx (pts ++ [o]) nw ne sw se, true)
      | bud + 1 =>
        if pts.length < cap then (.node bx (pts ++ [o]) nw ne sw se, true)
        else
          let r1 := qtInsert cap bud nw o
          if r1.2 then (.node bx pts r1.1 ne sw se, true)
          else
            let r2 := qtInsert cap bud ne o
            if r2.2 then (.node bx pts r1.1 r2.1 sw se, true)
            else
              let r3 := qtInsert cap bud sw o
              if r3.2 then (.node bx pts r1.1 r2.1 r3.1 se, true)
              else
                let r4 := qtInsert cap bud se o
                (.node bx pts r1.1 r2.1 r3.1 r4.1, r4.2)

def boxDisjoint (b range : QBox) : Bool :=
  decide (b.x + b.w / 2 < range.x - range.w / 2) ||
    decide (range.x + range.w / 2 < b.x - b.w / 2) ||
    decide (b.y + b.h / 2 < range.y - range.h / 2) ||
    decide (range.y + range.h / 2 < b.y - b.h / 2)

def inRange (range : QBox) (p : QObj) : Bool :=
  decide (range.x - range.w / 2 ≤ p.x) && decide (p.x ≤ range.x + range.w / 2) &&
    decide (range.y - range.h / 2 ≤ p.y) && decide (p.y ≤ range.y + range.h / 2)

def qtQueryRange (range : QBox) : QuadTree → List QObj
  | .leaf b pts => if boxDisjoint b range then [] else pts.filter (inRange range)
  | .node b pts nw ne sw se =>
    if boxDisjoint b range then []
    else
      pts.filter (inRange range)
        ++ (qtQueryRange range nw ++ (qtQueryRange range ne
            ++ (qtQueryRange range sw ++ qtQueryRange range se)))

def QuadTree.allPoints : QuadTree → List QObj
  | .leaf _ pts => pts
  | .node _ pts nw ne sw se =>
    pts ++ (nw.allPoints ++ (ne.allPoints ++ (sw.allPoints ++ se.allPoints)))

/-- Every point stored at a node lies inside that node's boundary, children's
boundaries are the four quadrants, and widths/heights are nonnegative: this
holds for every tree the program builds (it starts from an empty root and only
inserts). -/
def QuadTree.wellFormed : QuadTree → Prop
  | .leaf b pts => 0 ≤ b.w ∧ 0 ≤ b.h ∧ ∀ p ∈ pts, outOfBounds b p = false
  | .node b pts nw ne sw se =>
    0 ≤ b.w ∧ 0 ≤ b.h ∧ (∀ p ∈ pts, outOfBounds b p = false) ∧
      nw.boundary = nwBox b ∧ ne.boundary = neBox b ∧
      sw.boundary = swBox b ∧ se.boundary = seBox b ∧
      nw.wellFormed ∧ ne.wellFormed ∧ sw.wellFormed ∧ se.wellFormed

def qtInsertAll (cap maxDepth : ℕ) : QuadTree → List QObj → QuadTree × Bool
  | t, [] => (t, true)
  | t, o :: os =>
    let r := qtInsert cap maxDepth t o
    let rest := qtInsertAll cap maxDepth r.1 os
    (rest.1, r.2 && rest.2)

lemma qtInsert_zero_leaf (cap : ℕ) (bx : QBox) (pts : List QObj) (o : QObj) :
    qtInsert cap 0 (.leaf bx pts) o =
      if outOfBounds bx o then (.leaf bx pts, false)
      else (.leaf bx (pts ++ [o]), true) := rfl

lemma qtInsert_zero_node (cap : ℕ) (bx : QBox) (pts : List QObj) (nw ne sw se : QuadTree)
    (o : QObj) :
    qtInsert cap 0 (.node bx pts nw ne sw se) o =
      if outOfBounds bx o then (.node bx pts nw ne sw se, false)
      else (.node bx (pts ++ [o]) nw ne sw se, true) := rfl

lemma qtInsert_succ_leaf (cap bud : ℕ) (bx : QBox) (pts : List QObj) (o : QObj) :
    qtInsert cap (bud + 1) (.leaf bx pts) o =
      if outOfBounds bx o then (.leaf bx pts, false)
      else if pts.length < cap then (.leaf bx (pts ++ [o]), true)
      else if (qtInsert cap bud (.leaf (nwBox bx) []) o).2 then
        (.node bx pts (qtInsert cap bud (.leaf (nwBox bx) []) o).1
            (.leaf (neBox bx) []) (.leaf (swBox bx) []) (.leaf (seBox bx) []), true)
      else if (qtInsert cap bud (.leaf (neBox bx) []) o).2 then
        (.node bx pts (qtInsert cap bud (.leaf (nwBox bx) []) o).1
            (qtInsert cap bud (.leaf (neBox bx) []) o).1
            (.leaf (swBox bx) []) (.leaf (seBox bx) []), true)
      else if (qtInsert cap bud (.leaf (swBox bx) []) o).2 then
        (.node bx pts (qtInsert cap bud (.leaf (nwBox bx) []) o).1
            (qtInsert cap bud (.leaf (neBox bx) []) o).1
            (qtInsert cap bud (.leaf (swBox bx) []) o).1 (.leaf (seBox bx) []), true)
      else
        (.node bx pts (qtInsert cap bud (.leaf (nwBox bx) []) o).1
            (qtInsert cap bud (.leaf (neBox bx) []) o).1
            (qtInsert cap bud (.leaf (swBox bx) []) o).1
            (qtInsert cap bud (.leaf (seBox bx) []) o).1,
          (qtInsert cap bud (.leaf (seBox bx) []) o).2) := rfl

lemma qtInsert_succ_node (cap bud : ℕ) (bx : QBox) (pts : List QObj) (nw ne sw se : QuadTree)
    (o : QObj) :
    qtInsert cap (bud + 1) (.node bx pts nw ne sw se) o =
      if outOfBounds bx o then (.node bx pts nw ne sw se, false)
      else if pts.length < cap then (.node bx (pts ++ [o]) nw ne sw se, true)
      else if (qtInsert cap bud nw o).2 then
        (.node bx pts (qtInsert cap bud nw o).1 ne sw se, true)
      else if (qtInsert cap bud ne o).2 then
        (.node bx pts (qtInsert cap bud nw o).1 (qtInsert cap bud ne o).1 sw se, true)
      else if (qtInsert cap bud sw o).2 then
        (.node bx pts (qtInsert cap bud nw o).1 (qtInsert cap bud ne o).1
            (qtInsert cap bud sw o).1 se, true)
      else
        (.node bx pts (qtInsert cap bud nw o).1 (qtInsert cap bud ne o).1
            (qtInsert cap bud sw o).1 (qtInsert cap bud se o).1,
          (qtInsert cap bud se o).2) := rfl

lemma qtInsert_boundary (cap bud : ℕ) (t : QuadTree) (o : QObj) :
    ((qtInsert cap bud t o).1).boundary = t.boundary := by
  cases bud with
  | zero =>
    cases t with
    | leaf bx pts =>
      rw [qtInsert_zero_leaf]
      split <;> rfl
    | node bx pts nw ne sw se =>
      rw [qtInsert_zero_node]
      split <;> rfl
  | succ bud =>
    cases t with
    | leaf bx pts =>
      rw [qtInsert_succ_leaf]
      repeat' (first | split | simp only [])
      all_goals rfl
    | node bx pts nw ne sw se =>
      rw [qtInsert_succ_node]
      repeat' (first | split | simp only [])
      all_goals rfl

lemma outOfBounds_eq_false_iff (b : QBox) (o : QObj) :
    outOfBounds b o = false ↔
      b.x - b.w / 2 ≤ o.x ∧ o.x ≤ b.x + b.w / 2 ∧
        b.y - b.h / 2 ≤ o.y ∧ o.y ≤ b.y + b.h / 2 := by
  simp [outOfBounds, not_lt, and_assoc]

lemma inRange_eq_true_iff (range : QBox) (p : QObj) :
    inRange range p = true ↔
      range.x - range.w / 2 ≤ p.x ∧ p.x ≤ range.x + range.w / 2 ∧
        range.y - range.h / 2 ≤ p.y ∧ p.y ≤ range.y + range.h / 2 := by
  simp [inRange, and_assoc]

lemma quadrant_within (b : QBox) (q : QObj) (hw : 0 ≤ b.w) (hh : 0 ≤ b.h) :
    (outOfBounds (nwBox b) q = false ∨ outOfBounds (neBox b) q = false ∨
        outOfBounds (swBox b) q = false ∨ outOfBounds (seBox b) q = false) →
      outOfBounds b q = false := by
  simp only [outOfBounds_eq_false_iff, nwBox, neBox, swBox, seBox]
  rintro (⟨h1, h2, h3, h4⟩ | ⟨h1, h2, h3, h4⟩ | ⟨h1, h2, h3, h4⟩ | ⟨h1, h2, h3, h4⟩) <;>
    refine ⟨by linarith, by linarith, by linarith, by linarith⟩

lemma leaf_nil_wellFormed (b : QBox) (hw : 0 ≤ b.w) (hh : 0 ≤ b.h) :
    (QuadTree.leaf b []).wellFormed :=
  ⟨hw, hh, by simp⟩

lemma qtInsert_wellFormed (cap : ℕ) :
    ∀ (bud : ℕ) (t : QuadTree) (o : QObj),
      t.wellFormed → ((qtInsert cap bud t o).1).wellFormed := by
  intro bud
  induction bud with
  | zero =>
    intro t o hwf
    cases t with
    | leaf bx pts =>
      obtain ⟨hw, hh, hp⟩ := hwf
      rw [qtInsert_zero_leaf]
      split
      · exact ⟨hw, hh, hp⟩
      · refine ⟨hw, hh, fun p hmem => ?_⟩
        rcases List.mem_append.mp hmem with hmem | hmem
        · exact hp p hmem
        · rw [List.mem_singleton.mp hmem]
          simp_all
    | node bx pts nw ne sw se =>
      obtain ⟨hw, hh, hp, bnw, bne, bsw, bse, wnw, wne, wsw, wse⟩ := hwf
      rw [qtInsert_zero_node]
      split
      · exact ⟨hw, hh, hp, bnw, bne, bsw, bse, wnw, wne, wsw, wse⟩
      · refine ⟨hw, hh, fun p hmem => ?_, bnw, bne, bsw, bse, wnw, wne, wsw, wse⟩
        rcases List.mem_append.mp hmem with hmem | hmem
        · exact hp p hmem
        · rw [List.mem_singleton.mp hmem]
          simp_all
  | succ bud ih =>
    intro t o hwf
    cases t with
    | leaf bx pts =>
      obtain ⟨hw, hh, hp⟩ := hwf
      have hnw := leaf_nil_wellFormed (nwBox bx) (div_nonneg hw (by norm_num))
        (div_nonneg hh (by norm_num))
      have hne := leaf_nil_wellFormed (neBox bx) (div_nonneg hw (by norm_num))
        (div_nonneg hh (by norm_num))
      have hsw := leaf_nil_wellFormed (swBox bx) (div_nonneg hw (by norm_num))
        (div_nonneg hh (by norm_num))
      have hse := leaf_nil_wellFormed (seBox bx) (div_nonneg hw (by norm_num))
        (div_nonneg hh (by norm_num))
      rw [qtInsert_succ_leaf]
      repeat' (first | split | simp only [])
      all_goals
        first
          | exact ⟨hw, hh, hp⟩
          | (refine ⟨hw, hh, fun p hmem => ?_⟩
             rcases List.mem_append.mp hmem with hmem | hmem
             · exact hp p hmem
             · rw [List.mem_singleton.mp hmem]
               simp_all)
          | (refine ⟨hw, hh, hp, ?_, ?_, ?_, ?_, ?_, ?_, ?_, ?_⟩ <;>
              first
                | rfl
                | (rw [qtInsert_boundary]; rfl)
                | exact hnw | exact hne | exact hsw | exact hse
                | exact ih _ o hnw | exact ih _ o hne
                | exact ih _ o hsw | exact ih _ o hse)
    | node bx pts nw ne sw se =>
      obtain ⟨hw, hh, hp, bnw, bne, bsw, bse, wnw, wne, wsw, wse⟩ := hwf
      rw [qtInsert_succ_node]
      repeat' (first | split | simp only [])
      all_goals
        first
          | exact ⟨hw, hh, hp, bnw, bne, bsw, bse, wnw, wne, wsw, wse⟩
          | (refine ⟨hw, hh, fun p hmem => ?_, bnw, bne, bsw, bse, wnw, wne, wsw, wse⟩
             rcases List.mem_append.mp hmem with hmem | hmem
             · exact hp p hmem
             · rw [List.mem_singleton.mp hmem]
               simp_all)
          | (refine ⟨hw, hh, hp, ?_, ?_, ?_, ?_, ?_, ?_, ?_, ?_⟩ <;>
              first
                | exact bnw | exact bne | exact bsw | exact bse
                | (rw [qtInsert_boundary]
                   first | exact bnw | exact bne | exact bsw | exact bse)
                | exact wnw | exact wne | exact wsw | exact wse
                | exact ih _ o wnw | exact ih _ o wne
                | exact ih _ o wsw | exact ih _ o wse)

set_option maxHeartbeats 1000000 in
lemma qtInsert_mem_mono (cap : ℕ) :
    ∀ (bud : ℕ) (t : QuadTree) (o q : QObj),
      q ∈ t.allPoints → q ∈ ((qtInsert cap bud t o).1).allPoints := by
  intro bud
  induction bud with
  | zero =>
    intro t o q hq
    cases t with
    | leaf bx pts =>
      rw [qtInsert_zero_leaf]
      split
      · exact hq
      · simp only [QuadTree.allPoints] at hq ⊢
        exact List.mem_append_left _ hq
    | node bx pts nw ne sw se =>
      rw [qtInsert_zero_node]
      split
      · exact hq
      · simp only [QuadTree.allPoints, List.mem_append] at hq ⊢
        tauto
  | succ bud ih =>
    intro t o q hq
    cases t with
    | leaf bx pts =>
      rw [qtInsert_succ_leaf]
      simp only [QuadTree.allPoints] at hq
      repeat' (first | split | simp only [])
      all_goals simp only [QuadTree.allPoints, List.mem_append]
      all_goals tauto
    | node bx pts nw ne sw se =>
      have inw := ih nw o q
      have ine := ih ne o q
      have isw := ih sw o q
      have ise := ih se o q
      rw [qtInsert_succ_node]
      simp only [QuadTree.allPoints, List.mem_append] at hq
      repeat' (first | split | simp only [])
      all_goals simp only [QuadTree.allPoints, List.mem_append]
      all_goals tauto

lemma qtInsert_mem_of_ok (cap : ℕ) :
    ∀ (bud : ℕ) (t : QuadTree) (o : QObj),
      (qtInsert cap bud t o).2 = true → o ∈ ((qtInsert cap bud t o).1).allPoints := by
  intro bud
  induction bud with
  | zero =>
    intro t o hok
    cases t with
    | leaf bx pts =>
      rw [qtInsert_zero_leaf] at hok ⊢
      by_cases h1 : outOfBounds bx o = true
      · rw [if_pos h1] at hok
        simp at hok
      · rw [if_neg h1]
        exact List.mem_append_right _ (List.mem_singleton_self o)
    | node bx pts nw ne sw se =>
      rw [qtInsert_zero_node] at hok ⊢
      by_cases h1 : outOfBounds bx o = true
      · rw [if_pos h1] at hok
        simp at hok
      · rw [if_neg h1]
        exact List.mem_append_left _ (List.mem_append_right _ (List.mem_singleton_self o))
  | succ bud ih =>
    intro t o hok
    cases t with
    | leaf bx pts =>
      rw [qtInsert_succ_leaf] at hok ⊢
      by_cases h1 : outOfBounds bx o = true
      · rw [if_pos h1] at hok
        simp at hok
      · rw [if_neg h1] at hok ⊢
        by_cases h2 : pts.length < cap
        · rw [if_pos h2]
          exact List.mem_append_right _ (List.mem_singleton_self o)
        · rw [if_neg h2] at hok ⊢
          by_cases h3 : (qtInsert cap bud (.leaf (nwBox bx) []) o).2 = true
          · rw [if_pos h3]
            exact List.mem_append_right _ (List.mem_append_left _ (ih _ o h3))
          · rw [if_neg h3] at hok ⊢
            by_cases h4 : (qtInsert cap bud (.leaf (neBox bx) []) o).2 = true
            · rw [if_pos h4]
              exact List.mem_append_right _
                (List.mem_append_right _ (List.mem_append_left _ (ih _ o h4)))
            · rw [if_neg h4] at hok ⊢
              by_cases h5 : (qtInsert cap bud (.leaf (swBox bx) []) o).2 = true
              · rw [if_pos h5]
                exact List.mem_append_right _ (List.mem_append_right _
                  (List.mem_append_right _ (List.mem_append_left _ (ih _ o h5))))
              · rw [if_neg h5] at hok ⊢
                exact List.mem_append_right _ (List.mem_append_right _
                  (List.mem_append_right _ (List.mem_append_right _ (ih _ o hok))))
    | node bx pts nw ne sw se =>
      rw [qtInsert_succ_node] at hok ⊢
      by_cases h1 : outOfBounds bx o = true
      · rw [if_pos h1] at hok
        simp at hok
      · rw [if_neg h1] at hok ⊢
        by_cases h2 : pts.length < cap
        · rw [if_pos h2]
          exact List.mem_append_left _ (List.mem_append_right _ (List.mem_singleton_self o))
        · rw [if_neg h2] at hok ⊢
          by_cases h3 : (qtInsert cap bud nw o).2 = true
          · rw [if_pos h3]
            exact List.mem_append_right _ (List.mem_append_left _ (ih _ o h3))
          · rw [if_neg h3] at hok ⊢
            by_cases h4 : (qtInsert cap bud ne o).2 = true
            · rw [if_pos h4]
              exact List.mem_append_right _
                (List.mem_append_right _ (List.mem_append_left _ (ih _ o h4)))
            · rw [if_neg h4] at hok ⊢
              by_cases h5 : (qtInsert cap bud sw o).2 = true
              · rw [if_pos h5]
                exact List.mem_append_right _ (List.mem_append_right _
                  (List.mem_append_right _ (List.mem_append_left _ (ih _ o h5))))
              · rw [if_neg h5] at hok ⊢
                exact List.mem_append_right _ (List.mem_append_right _
                  (List.mem_append_right _ (List.mem_append_right _ (ih _ o hok))))

lemma wellFormed_mem_bounds :
    ∀ (t : QuadTree), t.wellFormed →
      ∀ q ∈ t.allPoints, outOfBounds t.boundary q = false := by
  intro t
  induction t with
  | leaf b pts =>
    intro hwf q hq
    exact hwf.2.2 q hq
  | node b pts nw ne sw se ihnw ihne ihsw ihse =>
    intro hwf q hq
    obtain ⟨hw, hh, hp, bnw, bne, bsw, bse, wnw, wne, wsw, wse⟩ := hwf
    simp only [QuadTree.allPoints, List.mem_append] at hq
    show outOfBounds b q = false
    rcases hq with h | h | h | h | h
    · exact hp q h
    · exact quadrant_within b q hw hh (Or.inl (by rw [← bnw]; exact ihnw wnw q h))
    · exact quadrant_within b q hw hh (Or.inr (Or.inl (by rw [← bne]; exact ihne wne q h)))
    · exact quadrant_within b q hw hh
        (Or.inr (Or.inr (Or.inl (by rw [← bsw]; exact ihsw wsw q h))))
    · exact quadrant_within b q hw hh
        (Or.inr (Or.inr (Or.inr (by rw [← bse]; exact ihse wse q h))))

lemma boxDisjoint_eq_false (b range : QBox) (q : QObj)
    (hq : outOfBounds b q = false) (hr : inRange range q = true) :
    boxDisjoint b range = false := by
  rw [outOfBounds_eq_false_iff] at hq
  rw [inRange_eq_true_iff] at hr
  obtain ⟨a1, a2, a3, a4⟩ := hq
  obtain ⟨c1, c2, c3, c4⟩ := hr
  simp only [boxDisjoint, Bool.or_eq_false_iff, decide_eq_false_iff_not, not_lt]
  exact ⟨⟨⟨by linarith, by linarith⟩, by linarith⟩, by linarith⟩

lemma qtQueryRange_complete (range : QBox) :
    ∀ (t : QuadTree), t.wellFormed →
      ∀ q ∈ t.allPoints, inRange range q = true → q ∈ qtQueryRange range t := by
  intro t
  induction t with
  | leaf b pts =>
    intro hwf q hq hr
    rw [qtQueryRange, boxDisjoint_eq_false b range q (hwf.2.2 q hq) hr]
    simpa using List.mem_filter.mpr ⟨hq, hr⟩
  | node b pts nw ne sw se ihnw ihne ihsw ihse =>
    intro hwf q hq hr
    have hob : outOfBounds b q = false := wellFormed_mem_bounds _ hwf q hq
    obtain ⟨hw, hh, hp, bnw, bne, bsw, bse, wnw, wne, wsw, wse⟩ := hwf
    rw [qtQueryRange, boxDisjoint_eq_false b range q hob hr]
    simp only [Bool.false_eq_true, if_false, List.mem_append, List.mem_filter]
    simp only [QuadTree.allPoints, List.mem_append] at hq
    rcases hq with h | h | h | h | h
    · exact Or.inl ⟨h, hr⟩
    · exact Or.inr (Or.inl (ihnw wnw q h hr))
    · exact Or.inr (Or.inr (Or.inl (ihne wne q h hr)))
    · exact Or.inr (Or.inr (Or.inr (Or.inl (ihsw wsw q h hr))))
    · exact Or.inr (Or.inr (Or.inr (Or.inr (ihse wse q h hr))))

lemma qtInsertAll_wellFormed (cap maxDepth : ℕ) :
    ∀ (os : List QObj) (t : QuadTree), t.wellFormed →
      ((qtInsertAll cap maxDepth t os).1).wellFormed := by
  intro os
  induction os with
  | nil => exact fun t h => h
  | cons o os ih =>
    intro t h
    exact ih _ (qtInsert_wellFormed cap maxDepth t o h)

lemma qtInsertAll_mem_mono (cap maxDepth : ℕ) :
    ∀ (os : List QObj) (t : QuadTree) (q : QObj),
      q ∈ t.allPoints → q ∈ ((qtInsertAll cap maxDepth t os).1).allPoints := by
  intro os
  induction os with
  | nil => exact fun t q h => h
  | cons o os ih =>
    intro t q h
    exact ih _ q (qtInsert_mem_mono cap maxDepth t o q h)

lemma qtInsertAll_mem (cap maxDepth : ℕ) :
    ∀ (os : List QObj) (t : QuadTree) (o : QObj),
      (qtInsertAll cap maxDepth t os).2 = true → o ∈ os →
        o ∈ ((qtInsertAll cap maxDepth t os).1).allPoints := by
  intro os
  induction os with
  | nil =>
    intro t o _ ho
    cases ho
  | cons o' os ih =>
    intro t o hok ho
    simp only [qtInsertAll, Bool.and_eq_true] at hok
    rcases List.mem_cons.mp ho with rfl | ho
    · exact qtInsertAll_mem_mono cap maxDepth os _ o
        (qtInsert_mem_of_ok cap maxDepth t o hok.1)
    · exact ih _ o hok.2 ho

/-- Claim C9: for every quadtree built from an empty root (of nonnegative
extent) by a sequence of insert calls that all succeed, and for every query
box, `qtQueryRange` returns every inserted object whose center lies inside
the box: the broad phase never misses one. -/
theorem quadtree_query_complete (cap maxDepth : ℕ) (bnd : QBox) (os : List QObj)
    (range : QBox) (o : QObj)
    (hw : 0 ≤ bnd.w) (hh : 0 ≤ bnd.h)
    (hok : (qtInsertAll cap maxDepth (QuadTree.leaf bnd []) os).2 = true)
    (ho : o ∈ os) (hr : inRange range o = true) :
    o ∈ qtQueryRange range (qtInsertAll cap maxDepth (QuadTree.leaf bnd []) os).1 := by
  have hwf0 : (QuadTree.leaf bnd []).wellFormed := leaf_nil_wellFormed bnd hw hh
  exact qtQueryRange_complete range _
    (qtInsertAll_wellFormed cap maxDepth os _ hwf0) o
    (qtInsertAll_mem cap maxDepth os _ o hok ho) hr

/-- Witness for `quadtree_query_complete` on a concrete two-object tree. -/
theorem quadtree_query_complete_witness :
    (0 : ℚ) ≤ (QBox.mk 0 0 100 100).w ∧ (0 : ℚ) ≤ (QBox.mk 0 0 100 100).h ∧
      (qtInsertAll 4 8 (QuadTree.leaf (QBox.mk 0 0 100 100) [])
          [QObj.mk (-10) (-10) 1 1, QObj.mk 10 10 1 2]).2 = true ∧
      QObj.mk 10 10 1 2 ∈ [QObj.mk (-10) (-10) 1 1, QObj.mk 10 10 1 2] ∧
      inRange (QBox.mk 0 0 100 100) (QObj.mk 10 10 1 2) = true ∧
      QObj.mk 10 10 1 2 ∈ qtQueryRange (QBox.mk 0 0 100 100)
        (qtInsertAll 4 8 (QuadTree.leaf (QBox.mk 0 0 100 100) [])
          [QObj.mk (-10) (-10) 1 1, QObj.mk 10 10 1 2]).1 := by
  have hb1 : outOfBounds (QBox.mk 0 0 100 100) (QObj.mk (-10) (-10) 1 1) = false := by
    norm_num [outOfBounds, Bool.or_eq_false_iff, decide_eq_false_iff_not]
  have hb2 : outOfBounds (QBox.mk 0 0 100 100) (QObj.mk 10 10 1 2) = false := by
    norm_num [outOfBounds, Bool.or_eq_false_iff, decide_eq_false_iff_not]
  have hq1 : qtInsert 4 8 (QuadTree.leaf (QBox.mk 0 0 100 100) []) (QObj.mk (-10) (-10) 1 1)
      = (QuadTree.leaf (QBox.mk 0 0 100 100) [QObj.mk (-10) (-10) 1 1], true) := by
    rw [show (8 : ℕ) = 7 + 1 from rfl, qtInsert_succ_leaf, hb1]
    norm_num
  have hq2 : qtInsert 4 8 (QuadTree.leaf (QBox.mk 0 0 100 100) [QObj.mk (-10) (-10) 1 1])
      (QObj.mk 10 10 1 2)
      = (QuadTree.leaf (QBox.mk 0 0 100 100)
          [QObj.mk (-10) (-10) 1 1, QObj.mk 10 10 1 2], true) := by
    rw [show (8 : ℕ) = 7 + 1 from rfl, qtInsert_succ_leaf, hb2]
    norm_num
  have hall : qtInsertAll 4 8 (QuadTree.leaf (QBox.mk 0 0 100 100) [])
      [QObj.mk (-10) (-10) 1 1, QObj.mk 10 10 1 2]
      = (QuadTree.leaf (QBox.mk 0 0 100 100)
          [QObj.mk (-10) (-10) 1 1, QObj.mk 10 10 1 2], true) := by
    simp only [qtInsertAll, hq1, hq2, Bool.and_self]
  have hr2 : inRange (QBox.mk 0 0 100 100) (QObj.mk 10 10 1 2) = true := by
    norm_num [inRange, Bool.and_eq_true, decide_eq_true_eq]
  have hmem : QObj.mk 10 10 1 2 ∈ [QObj.mk (-10) (-10) 1 1, QObj.mk 10 10 1 2] := by simp
  refine ⟨by norm_num, by norm_num, by rw [hall], hmem, hr2, ?_⟩
  exact quadtree_query_complete 4 8 _ _ _ _ (by norm_num) (by norm_num) (by rw [hall])
    hmem hr2

/-! ## Message handling (handleMessage).  A decoded message; malformed or
unknown payloads are the `other` constructor. -/

inductive Msg where
  | join (name : Option String) (skin : Option ℤ) (color : Option (ℝ × ℝ × ℝ))
  | input (dx dy : ℝ)
  | splitMsg
  | ejectMsg
  | other

noncomputable def applyMessage (p : Player) (foods : List Food) (m : Msg) :
    Player × List Food :=
  match m with
  | .join name skin color =>
    let p1 := match name with
      | some n => if 0 < n.length then { p with name := n.take 16 } else p
      | none => p
    let p2 := match skin with
      | some s => { p1 with skin := s }
      | none => p1
    let p3 := match color with
      | some c => { p2 with color := c }
      | none => p2
    (p3, foods)
  | .input dx dy =>
    let p1 := { p with inputDir := (dx, dy) }
    let dirLen := Real.sqrt (dx ^ 2 + dy ^ 2)
    if 0 < dirLen then
      match p1.cells with
      | [] => (p1, foods)
      | firstCell :: _ =>
        ({ p1 with
            mouseX := firstCell.x + dx * 100
            mouseY := firstCell.y + dy * 100
            hasMouseTarget := true }, foods)
    else (p1, foods)
  | .splitMsg => (splitPlayer p, foods)
  | .ejectMsg => ejectMass p foods
  | .other => (p, foods)

/-- The mouse-target branch of the movement step, written out separately. -/
noncomputable def mouseMoveCell (p : Player) (dt : ℝ) (c : Cell) : Cell :=
  let sizeFactor := Real.sqrt (c.radius / 40)
  let speed := BASE_SPEED / sizeFactor
  let dx := p.mouseX - c.x
  let dy := p.mouseY - c.y
  let distToMouse := Real.sqrt (dx * dx + dy * dy)
  let v :=
    if c.radius * 0.5 < distToMouse then
      (c.vx + dx / distToMouse * speed * dt * TARGET_SPEED_MULTIPLIER,
        c.vy + dy / distToMouse * speed * dt * TARGET_SPEED_MULTIPLIER)
    else (c.vx * 0.7, c.vy * 0.7)
  { x := clampCoord c.radius (c.x + v.1 * dt)
    y := clampCoord c.radius (c.y + v.2 * dt)
    radius := c.radius
    vx := v.1 * 0.86
    vy := v.2 * 0.86
    mergeTimer := c.mergeTimer - dt }

/-- Claim C10: an input message with a non-zero direction (and a non-empty
cell list) sets `hasMouseTarget`; no later message of any kind (including a
zero-direction input) ever resets it; and whenever `hasMouseTarget` is set,
the movement step steers every cell of the player toward the stored mouse
point (the mouse branch of the resolver), so direction-vector movement is
never restored. -/
theorem mouse_target_sticky :
    (∀ (p : Player) (foods : List Food) (dx dy : ℝ), ¬(dx = 0 ∧ dy = 0) → p.cells ≠ [] →
        ((applyMessage p foods (.input dx dy)).1).hasMouseTarget = true) ∧
    (∀ (p : Player) (foods : List Food) (m : Msg), p.hasMouseTarget = true →
        ((applyMessage p foods m).1).hasMouseTarget = true) ∧
    (∀ (p : Player) (dt : ℝ) (c : Cell), p.hasMouseTarget = true →
        moveCell p dt c = mouseMoveCell p dt c) := by
  refine ⟨fun p foods dx dy hd hc => ?_, fun p foods m hm => ?_, fun p dt c hm => ?_⟩
  · have hpos : 0 < Real.sqrt (dx ^ 2 + dy ^ 2) := by
      apply Real.sqrt_pos.mpr
      rcases not_and_or.mp hd with h | h
      · positivity
      · positivity
    rw [applyMessage]
    rw [if_pos hpos]
    match hcells : p.cells with
    | [] => exact absurd hcells hc
    | firstCell :: rest => rfl
  · match m with
    | .join name skin color =>
      rcases name with - | n <;> rcases skin with - | s <;> rcases color with - | cl <;>
        simp only [applyMessage] <;> (try split_ifs) <;> exact hm
    | .input dx dy =>
      rw [applyMessage]
      split_ifs with h
      · match p.cells with
        | [] => exact hm
        | firstCell :: rest => rfl
      · exact hm
    | .splitMsg => exact hm
    | .ejectMsg =>
      rw [applyMessage, ejectMass]
      split_ifs <;> exact hm
    | .other => exact hm
  · rw [moveCell, mouseMoveCell, if_pos hm]

/-- Witness for `mouse_target_sticky` at a concrete player with an active
mouse target. -/
noncomputable def mousePlayer : Player :=
  { name := "p"
    skin := -1
    color := (0, 0, 0)
    isBot := false
    cells := [⟨0, 0, 40, 0, 0, 10⟩]
    inputDir := (1, 0)
    mouseX := 100
    mouseY := 0
    hasMouseTarget := true }

theorem mouse_target_sticky_witness :
    ((applyMessage mousePlayer [] (.input 1 0)).1).hasMouseTarget = true ∧
      ((applyMessage mousePlayer [] (.input 0 0)).1).hasMouseTarget = true ∧
      moveCell mousePlayer 0.05 (Cell.mk 0 0 40 0 0 10)
        = mouseMoveCell mousePlayer 0.05 (Cell.mk 0 0 40 0 0 10) :=
  ⟨mouse_target_sticky.1 mousePlayer [] 1 0 (by norm_num) (by simp [mousePlayer]),
    mouse_target_sticky.2.1 mousePlayer [] (.input 0 0) rfl,
    mouse_target_sticky.2.2 mousePlayer 0.05 _ rfl⟩

end EatCells
